import Mathlib

/-!
# Verification of the CMP router core (node reference implementation)

A shallow embedding of the validator, executor, matcher, orchestrator and
transport request handler of the CMP router (`src/routers/node/src/{validator,
index,server}.js` and `src/matcher.js`), together with theorems settling the
frozen claims about them.

Modelling conventions:
* JavaScript values are modelled by `JVal`.  JS numbers are modelled as
  integers (`Int`); no claim involves fractional numbers, and the only numeric
  operations the embedded code performs are integer parsing, stringification
  and strict equality.  The double-precision limit (|n| beyond 2^53) is
  outside the modelled range; all claims use small numbers.
* JS objects are modelled as insertion-ordered association lists
  (`List (String × JVal)`); `Object.entries` is the list itself, property
  update replaces in place or appends, mirroring JS key ordering.
* Regular-expression intent patterns (the `re:` marker) are modelled by an
  abstract test function `rt : String → String → Bool` standing for
  `new RegExp(src, "i").test input`; every theorem quantifies over it.
* Process spawning is I/O and is outside the pure model; `run`'s pure prefix
  (the placeholder gate that decides whether a spawn happens at all) is
  embedded as `validateCommandE` / `runReachesSpawn`.
-/

/-- Convenient names for the characters that the scanner treats specially. -/
def squoteC : Char := Char.ofNat 39

def bslashC : Char := Char.ofNat 92

def lbraceC : Char := Char.ofNat 123

def rbraceC : Char := Char.ofNat 125

def squoteS : String := String.mk [squoteC]

def lbraceS : String := String.mk [lbraceC]

def rbraceS : String := String.mk [rbraceC]

/-- JavaScript runtime values, as far as the embedded code needs them.
JS numbers are modelled as integers (see the file header). -/
inductive JVal where
  | str (s : String)
  | int (n : Int)
  | bool (b : Bool)
  | arr (xs : List JVal)
  | obj (fields : List (String × JVal))
  | jnull
deriving Repr

/-- `typeof value` for the modelled values. -/
def jsTypeof : JVal → String
  | .str _ => "string"
  | .int _ => "number"
  | .bool _ => "boolean"
  | .arr _ => "object"
  | .obj _ => "object"
  | .jnull => "object"

/-- `String(value)` for the modelled values (JS array toString joins with
commas; `String(null)` is `"null"`). -/
def jsToString : JVal → String
  | .str s => s
  | .int n => toString n
  | .bool b => if b then "true" else "false"
  | .arr xs => String.intercalate "," (xs.map (fun v =>
      match v with
      | .str s => s
      | .int n => toString n
      | .bool b => if b then "true" else "false"
      | .arr _ => ""
      | .obj _ => "[object Object]"
      | .jnull => ""))
  | .obj _ => "[object Object]"
  | .jnull => "null"

/-- JS truthiness of an optional (possibly absent = `undefined`) value. -/
def jsTruthy : Option JVal → Bool
  | none => false
  | some (.str s) => !(s == "")
  | some (.int n) => !(n == 0)
  | some (.bool b) => b
  | some (.arr _) => true
  | some (.obj _) => true
  | some .jnull => false

/-- JS strict equality (`===`) on the modelled values: primitives compare by
value, arrays and objects by reference, so a freshly decoded array/object is
never `===` to another one. -/
def jsEq : JVal → JVal → Bool
  | .str a, .str b => a == b
  | .int a, .int b => a == b
  | .bool a, .bool b => a == b
  | _, _ => false

/-- Property lookup on a modelled object (`undefined` when absent). -/
def jsLookup (m : List (String × JVal)) (k : String) : Option JVal :=
  (m.find? (fun p => p.1 == k)).map (fun p => p.2)

/-- `key in object`. -/
def jsHasKey (m : List (String × JVal)) (k : String) : Bool :=
  m.any (fun p => p.1 == k)

/-- `object[key] = value`: replace in place when the key exists (JS keeps the
original insertion position), append otherwise. -/
def jsSetKey (m : List (String × JVal)) (k : String) (v : JVal) :
    List (String × JVal) :=
  if m.any (fun p => p.1 == k) then
    m.map (fun p => if p.1 == k then (k, v) else p)
  else m ++ [(k, v)]

/-! ## Character classes and shell sanitization (`validator.js`) -/

/-- The safe character class of `sanitizeForShell`:
`/^[a-zA-Z0-9_.\-\/]+$/`. -/
def isSafeChar (c : Char) : Bool :=
  (('a' ≤ c && c ≤ 'z') || ('A' ≤ c && c ≤ 'Z') || ('0' ≤ c && c ≤ '9') ||
    c == '_' || c == '.' || c == '-' || c == '/')

/-- JS regex word character `\w` = `[A-Za-z0-9_]`. -/
def isWordCharJS (c : Char) : Bool :=
  (('a' ≤ c && c ≤ 'z') || ('A' ≤ c && c ≤ 'Z') || ('0' ≤ c && c ≤ '9') ||
    c == '_')

/-- One step of `value.replace(/'/g, "'\\''")`: a single quote becomes the
four characters close-quote, backslash, quote, reopen-quote. -/
def escQuoteChar (c : Char) : List Char :=
  if c == squoteC then [squoteC, bslashC, squoteC, squoteC] else [c]

/-- `value.replace(/'/g, "'\\''")` over the character list. -/
def escQuotes : List Char → List Char
  | [] => []
  | c :: rest => escQuoteChar c ++ escQuotes rest

/-- The test `/^[a-zA-Z0-9_.\-\/]+$/.test value` (nonempty and all safe). -/
def isSimpleShellStr (s : String) : Bool :=
  !(s.data.isEmpty) && s.data.all isSafeChar

/-- `sanitizeForShell` on a string argument: simple strings pass through,
anything else is wrapped in single quotes with embedded quotes escaped. -/
def sanitizeForShellStr (s : String) : String :=
  if isSimpleShellStr s then s
  else String.mk (squoteC :: escQuotes s.data ++ [squoteC])

/-- `sanitizeForShell(value)`: non-strings take the early
`return String(value)` path (no quoting). -/
def sanitizeForShell (v : JVal) : String :=
  match v with
  | .str s => sanitizeForShellStr s
  | v => jsToString v

mutual

/-- `sanitizeValue`: arrays element-wise, strings through `sanitizeForShell`,
numbers/booleans (and other non-array non-string values) returned as-is. -/
def sanitizeValue : JVal → JVal
  | .arr xs => .arr (sanitizeValueList xs)
  | .str s => .str (sanitizeForShellStr s)
  | v => v

def sanitizeValueList : List JVal → List JVal
  | [] => []
  | v :: vs => sanitizeValue v :: sanitizeValueList vs

end

/-! ## Number parsing used by `validateType` -/

/-- All characters are decimal digits and the list is nonempty. -/
def allDigits (cs : List Char) : Bool :=
  !cs.isEmpty && cs.all (fun c => '0' ≤ c && c ≤ '9')

/-- Digit-list to natural number value. -/
def digitsToNat (cs : List Char) : Nat :=
  cs.foldl (fun acc c => acc * 10 + (c.toNat - '0'.toNat)) 0

/-- Decimal integer denoted by the whole string (an optional leading minus
followed by digits), if any.  Together with the re-stringification check below
this models `parseInt(value, 10)` followed by
`String(parsed) === value`: the combination accepts exactly the canonical
decimal spellings, and both reject everything else. -/
def parseDecInt? (s : String) : Option Int :=
  match s.data with
  | [] => none
  | c :: rest =>
    if c == '-' then
      if allDigits rest then some (-(digitsToNat rest : Int)) else none
    else if allDigits (c :: rest) then some ((digitsToNat (c :: rest) : Int))
    else none

/-- `parseInt(value, 10)` with round-trip check
`String(parsed) === value` (the `integer` coercion rule). -/
def parseIntCanonical? (s : String) : Option Int :=
  match parseDecInt? s with
  | some n => if toString n == s then some n else none
  | none => none

/-- `parseInt(item, 10)` as used by the `array<integer>` rule: leading
whitespace is skipped, an optional sign is read, and the longest leading digit
run gives the value (`NaN`, i.e. `none`, when there is no digit). -/
def parseIntPrefix? (s : String) : Option Int :=
  let cs := s.data.dropWhile (fun c => c == ' ' || c == '\t' || c == '\n')
  match cs with
  | [] => none
  | c :: rest =>
    if c == '-' then
      let ds := rest.takeWhile (fun d => '0' ≤ d && d ≤ '9')
      if ds.isEmpty then none else some (-(digitsToNat ds : Int))
    else if c == '+' then
      let ds := rest.takeWhile (fun d => '0' ≤ d && d ≤ '9')
      if ds.isEmpty then none else some ((digitsToNat ds : Int))
    else
      let ds := (c :: rest).takeWhile (fun d => '0' ≤ d && d ≤ '9')
      if ds.isEmpty then none else some ((digitsToNat ds : Int))

/-- `parseFloat(value)` restricted to the integer-valued strings the model
supports (see the file header): an optional sign and a digit run, not
continued by a fraction or exponent.  No claim exercises fractional input. -/
def parseFloatInt? (s : String) : Option Int :=
  match parseDecInt? s with
  | some n => some n
  | none => none

/-! ## `validateType` -/

/-- `validateType value type` — `none` for `{valid: false}`, `some c?` for
`{valid: true}` where `c?` is the `coerced` field (absent = no coercion). -/
def validateType (value : JVal) (ty : Option String) : Option (Option JVal) :=
  match ty with
  | none => some none
  | some t =>
    if t == "string" then
      match value with
      | .str _ => some none
      | .int n => some (some (.str (toString n)))
      | _ => none
    else if t == "integer" then
      match value with
      | .int _ => some none
      | .str s =>
        match parseIntCanonical? s with
        | some n => some (some (.int n))
        | none => none
      | _ => none
    else if t == "number" then
      match value with
      | .int _ => some none
      | .str s =>
        match parseFloatInt? s with
        | some n => some (some (.int n))
        | none => none
      | _ => none
    else if t == "boolean" then
      match value with
      | .bool _ => some none
      | .str s =>
        if s == "true" then some (some (.bool true))
        else if s == "false" then some (some (.bool false))
        else none
      | _ => none
    else if t == "array<string>" then
      match value with
      | .arr xs =>
        if xs.all (fun x => match x with | .str _ => true | _ => false) then
          some none
        else some (some (.arr (xs.map (fun x => .str (jsToString x)))))
      | _ => none
    else if t == "array<integer>" then
      match value with
      | .arr xs =>
        let step := fun (acc : Option (List Int)) (x : JVal) =>
          match acc with
          | none => none
          | some l =>
            match x with
            | .int n => some (l ++ [n])
            | .str s =>
              match parseIntPrefix? s with
              | some n => some (l ++ [n])
              | none => none
            | _ => none
        match xs.foldl step (some []) with
        | some l => some (some (.arr (l.map (fun n => .int n))))
        | none => none
      | _ => none
    else if t == "array" then
      match value with
      | .arr _ => some none
      | _ => none
    else if t == "object" then
      match value with
      | .obj _ => some none
      | _ => none
    else
      -- unknown type: pass through
      some none

/-! ## `validateParams` (`validator.js`) -/

/-- One declared parameter (`ParamDef`): type, `required === true`, optional
default, optional enum.  Absent JSON fields are `none`/`false`. -/
structure ParamSchema where
  type? : Option String
  required : Bool
  default? : Option JVal
  enum? : Option (List JVal)
deriving Repr

/-- One structured validation error.  The heterogeneous diagnostic fields
`expected`/`received` are carried as modelled JS values. -/
structure VError where
  type : String
  param : String
  expected? : Option JVal
  received? : Option JVal
  message : String
deriving Repr

/-- The `{ valid, errors, sanitized }` result of `validateParams`. -/
structure ValidationResult where
  valid : Bool
  errors : List VError
  sanitized : List (String × JVal)
deriving Repr

/-- `checkRequired(context, schema)`. -/
def checkRequired (context : List (String × JVal))
    (schema : List (String × ParamSchema)) : List String :=
  (schema.filter (fun kv => kv.2.required && !(jsHasKey context kv.1))).map
    (fun kv => kv.1)

/-- Wrap a string in the apostrophe quotes used by the JS error messages. -/
def quoteName (s : String) : String := squoteS ++ s ++ squoteS

/-- `enum.join(", ")` (items stringified as JS does). -/
def joinEnum (es : List JVal) : String :=
  String.intercalate ", " (es.map jsToString)

/-- Schema lookup (`schema[key]`). -/
def schemaLookup (schema : List (String × ParamSchema)) (k : String) :
    Option ParamSchema :=
  (schema.find? (fun p => p.1 == k)).map (fun p => p.2)

/-- The body of the per-key loop of `validateParams`, threading the error list
and the sanitized map. -/
def validateParamsStep (schema : List (String × ParamSchema))
    (acc : List VError × List (String × JVal)) (kv : String × JVal) :
    List VError × List (String × JVal) :=
  let errs := acc.1
  let san := acc.2
  let key := kv.1
  let value := kv.2
  match schemaLookup schema key with
  | none =>
    -- unknown parameter: pass through but sanitize
    (errs, jsSetKey san key (sanitizeValue value))
  | some ps =>
    match validateType value ps.type? with
    | none =>
      let tyStr := match ps.type? with | some t => t | none => "undefined"
      (errs ++ [{ type := "type_mismatch", param := key,
                  expected? := ps.type?.map JVal.str,
                  received? := some (.str (jsTypeof value)),
                  message := "Parameter " ++ quoteName key ++
                    " expected type " ++ quoteName tyStr ++ ", got " ++
                    quoteName (jsTypeof value) }], san)
    | some coerced? =>
      match ps.enum? with
      | some es =>
        if es.any (fun e => jsEq e value) then
          (errs, jsSetKey san key (sanitizeValue (coerced?.getD value)))
        else
          (errs ++ [{ type := "invalid_enum", param := key,
                      expected? := some (.arr es),
                      received? := some value,
                      message := "Parameter " ++ quoteName key ++
                        " must be one of: " ++ joinEnum es }], san)
      | none =>
        (errs, jsSetKey san key (sanitizeValue (coerced?.getD value)))

/-- `validateParams(context, schema)`.  An absent schema and an empty schema
both take the early `return { valid: true, errors: [], sanitized: context }`
path; the context is modelled as its (insertion-ordered) entry list. -/
def validateParams (context : List (String × JVal))
    (schema : List (String × ParamSchema)) : ValidationResult :=
  if schema.isEmpty then { valid := true, errors := [], sanitized := context }
  else
    let missing := checkRequired context schema
    let errs0 := missing.map (fun p =>
      { type := "missing_required", param := p,
        expected? := none, received? := none,
        message := "Required parameter " ++ quoteName p ++ " is missing" })
    let step := validateParamsStep schema
    let res := context.foldl step (errs0, [])
    let sanitized := schema.foldl (fun san kv =>
      match kv.2.default? with
      | some d => if jsHasKey san kv.1 then san
                  else jsSetKey san kv.1 (sanitizeValue d)
      | none => san) res.2
    { valid := res.1.isEmpty, errors := res.1, sanitized := sanitized }

/-! ## Placeholder scanning (`checkPlaceholders`, `validateCommand`) -/

/-- The scan of `command.match(/\x7b(\w+)\x7d/g)` as a character-level state
machine.  The accumulator holds the word characters (reversed) collected since
the most recent open brace, `none` when no token can start at the current
position.  This walks the string once, exactly as the regex engine's
non-overlapping global scan does: a match is an open brace, a nonempty run of
word characters, and a close brace; scanning resumes after the close brace. -/
def placeholderScan : Option (List Char) → List Char → List String
  | _, [] => []
  | cur, c :: rest =>
    if c == lbraceC then placeholderScan (some []) rest
    else if c == rbraceC then
      match cur with
      | some (d :: ds) =>
        String.mk (d :: ds).reverse :: placeholderScan none rest
      | _ => placeholderScan none rest
    else if isWordCharJS c then
      match cur with
      | some ws => placeholderScan (some (c :: ws)) rest
      | none => placeholderScan none rest
    else placeholderScan none rest

/-- `checkPlaceholders(command)`: the flag and the list of placeholder names
(with the braces already stripped). -/
def checkPlaceholders (command : String) : Bool × List String :=
  let ms := placeholderScan none command.data
  (!ms.isEmpty, ms)

/-- The data of a thrown `ValidationError` (message, fixed code `-32602`,
structured error list). -/
structure ValidationErrE where
  message : String
  code : Int
  errors : List VError
deriving Repr

/-- `validateCommand(command)`: throws (returns `.error`) when the command
still contains a `\x7bidentifier\x7d` placeholder. -/
def validateCommandE (command : String) : Except ValidationErrE Unit :=
  let r := checkPlaceholders command
  if r.1 then
    .error { message := "Command has unsubstituted placeholders: " ++
               String.intercalate ", " r.2,
             code := -32602,
             errors := r.2.map (fun p =>
               { type := "unsubstituted_placeholder", param := p,
                 expected? := none, received? := none,
                 message := "Parameter " ++ quoteName p ++
                   " was not provided and has no default" }) }
  else .ok ()

/-- `Executor.run` validates the command and only then spawns a process
(`spawn` is I/O, outside the model): this is the pure gate deciding whether a
spawn happens at all on that call. -/
def runReachesSpawn (command : String) : Bool :=
  match validateCommandE command with
  | .ok _ => true
  | .error _ => false

/-! ## Word splitting and substring utilities -/

/-- `s.split(/\W+/)` as a single-pass state machine.  `some acc` means a word
is being accumulated (reversed); `none` means the scan is inside a separator
run.  Reproduces the JS artefacts: a leading separator contributes a leading
empty string, a trailing separator a trailing one, and the empty string splits
to `[""]`. -/
def splitNonWordGo : Option (List Char) → List Char → List String
  | some acc, [] => [String.mk acc.reverse]
  | none, [] => [String.mk []]
  | some acc, c :: rest =>
    if isWordCharJS c then splitNonWordGo (some (c :: acc)) rest
    else String.mk acc.reverse :: splitNonWordGo none rest
  | none, c :: rest =>
    if isWordCharJS c then splitNonWordGo (some [c]) rest
    else splitNonWordGo none rest

/-- `s.split(/\W+/)`. -/
def splitNonWord (s : String) : List String :=
  splitNonWordGo (some []) s.data

/-- `s.includes(pat)` over character lists. -/
def containsSub (pat : List Char) : List Char → Bool
  | [] => pat.isEmpty
  | c :: rest => pat.isPrefixOf (c :: rest) || containsSub pat rest

/-- `s.includes(pat)` on strings. -/
def containsStr (s pat : String) : Bool :=
  containsSub pat.data s.data

/-- `s.split(sep).join(rep)` — replace every non-overlapping occurrence of
`sep`, scanning left to right; the replacement text is not rescanned.  Written
with explicit fuel (one unit per examined character, `fuel = s.length`
suffices) so that concrete evaluation reduces definitionally.  The `sep = []`
case never arises: every placeholder contains its braces. -/
def replaceGo (sep rep : List Char) : Nat → List Char → List Char
  | _, [] => []
  | 0, s => s
  | Nat.succ fuel, c :: rest =>
    if !sep.isEmpty && sep.isPrefixOf (c :: rest) then
      rep ++ replaceGo sep rep fuel ((c :: rest).drop sep.length)
    else c :: replaceGo sep rep fuel rest

/-- `s.split(sep).join(rep)` on strings. -/
def replaceAllStr (s sep rep : String) : String :=
  String.mk (replaceGo sep.data rep.data s.data.length s.data)

/-- `s.toLowerCase()` (ASCII range, which is all the embedded code relies
on). -/
def toLowerStr (s : String) : String :=
  String.mk (s.data.map Char.toLower)

/-- Whitespace for `s.trim()` (the ASCII whitespace the claims exercise). -/
def isWsChar (c : Char) : Bool :=
  c == ' ' || c == '\t' || c == '\n' || c == '\r'

/-- `s.trim()`. -/
def trimStr (s : String) : String :=
  String.mk (((s.data.dropWhile isWsChar).reverse.dropWhile isWsChar).reverse)

/-! ## Data model (`registry.js` manifests, `capability.json` intents) -/

/-- One intent of a capability record: pattern list, command template,
parameter schema (`params` absent = empty), and the behaviour flags. -/
structure Intent where
  patterns : List String
  command : String
  params : List (String × ParamSchema)
  confirm : Bool
  destructive : Bool
deriving Repr

/-- A tool manifest as the matcher and router consume it. -/
structure Tool where
  name : String
  domain : String
  summary : String
deriving Repr

/-- A registered tool together with its capability record; `none` models a
failing `loadCapability` (missing or unreadable `capability.json`). -/
structure RegTool where
  tool : Tool
  capability : Option (List Intent)
deriving Repr

/-! ## Matcher (`matcher.js`) -/

/-- `matchesSummary(intent, summary)`: at least one shared word longer than
two characters.  The intent string arrives already lower-cased by `match`. -/
def matchesSummary (intent summary : String) : Bool :=
  let summaryWords := splitNonWord (toLowerStr summary)
  let intentWords := splitNonWord intent
  (intentWords.filter (fun w =>
    summaryWords.contains w && w.length > 2)).length ≥ 1

/-- Does one pattern fire on the (normalized) input?  Regex patterns
(`re:` marker) are decided by the abstract regex semantics `rt`; otherwise the
substring rule, then the word-overlap rule (`overlap ≥ patternWords * 0.5`,
stated as `2 * overlap ≥ patternWords` which is exact for these floats). -/
def patternFires (rt : String → String → Bool) (normalized pattern : String) :
    Bool :=
  if "re:".data.isPrefixOf pattern.data then
    rt (String.mk (pattern.data.drop 3)) normalized
  else
    let normalizedPattern := toLowerStr pattern
    if containsStr normalized normalizedPattern ||
       containsStr normalizedPattern normalized then true
    else
      let patternWords := splitNonWord normalizedPattern
      let intentWords := splitNonWord normalized
      let overlap := patternWords.filter (fun w =>
        intentWords.contains w && w.length > 2)
      2 * overlap.length ≥ patternWords.length

/-- `findIntent(intents, intentStr)`: the first intent one of whose patterns
fires. -/
def findIntent (rt : String → String → Bool) (intents : List Intent)
    (intentStr : String) : Option Intent :=
  let normalized := trimStr (toLowerStr intentStr)
  intents.find? (fun intent =>
    intent.patterns.any (fun p => patternFires rt normalized p))

/-- A match candidate: the tool (with its registry entry), the matched intent
for pattern-level hits, and the score (`0.5` summary, `1.0` pattern). -/
structure Candidate where
  tool : RegTool
  intent? : Option Intent
  score : ℚ
deriving Repr

/-- The candidate-collection loop of `Matcher.match`: per tool, a summary hit
pushes a `0.5` candidate, then a pattern hit in a loadable capability pushes a
`1.0` candidate; capability-load failures are swallowed. -/
def matchCandidates (rt : String → String → Bool) (normalizedIntent : String)
    (tools : List RegTool) : List Candidate :=
  tools.foldl (fun acc t =>
    let acc1 := if matchesSummary normalizedIntent t.tool.summary then
        acc ++ [{ tool := t, intent? := none, score := mkRat 1 2 }]
      else acc
    match t.capability with
    | none => acc1
    | some caps =>
      match findIntent rt caps normalizedIntent with
      | some i => acc1 ++ [{ tool := t, intent? := some i, score := 1 }]
      | none => acc1) []

/-- Stable insertion of a candidate into a list sorted by descending score:
the new element goes after every element with a score at least as large
(`¬ d < c`, written with the executable comparison `Rat.blt`).  Models
`candidates.sort((a, b) => b.score - a.score)` (a stable sort). -/
def insertByScore (c : Candidate) : List Candidate → List Candidate
  | [] => [c]
  | d :: ds => if Rat.blt d.score c.score then c :: d :: ds
               else d :: insertByScore c ds

/-- Stable sort by descending score (left-to-right insertion keeps the
original order of equal-score candidates). -/
def sortByScoreDesc (cs : List Candidate) : List Candidate :=
  cs.foldl (fun acc c => insertByScore c acc) []

/-- The result of `Matcher.match`: `none` for no match, an ambiguous set of
`(name, domain)` pairs, or a single winning candidate. -/
inductive MatchRes where
  | ambiguous (candidates : List (String × String))
  | single (c : Candidate)
deriving Repr

/-- `Matcher.match(intentStr, registry)`.  When the two top scores after
sorting are equal the result is ambiguous and exposes *every* collected
candidate (not only the tied ones), exactly as
`candidates.map(c => ({tool, domain}))` does. -/
def matcherMatch (rt : String → String → Bool) (intentStr : String)
    (tools : List RegTool) : Option MatchRes :=
  let normalizedIntent := trimStr (toLowerStr intentStr)
  let candidates := matchCandidates rt normalizedIntent tools
  if candidates.isEmpty then none
  else
    let sorted := sortByScoreDesc candidates
    match sorted with
    | c0 :: c1 :: rest =>
      if c0.score == c1.score then
        some (.ambiguous ((c0 :: c1 :: rest).map (fun c =>
          (c.tool.tool.name, c.tool.tool.domain))))
      else some (.single c0)
    | [c0] => some (.single c0)
    | [] => none

/-! ## Executor (`executor.js`) -/

/-- A thrown `ExecutionError` (message, JSON-RPC code, data payload). -/
structure ExecErr where
  message : String
  code : Int
  data : Option JVal
deriving Repr

/-- `formatSingleValue`: strings are re-passed through `sanitizeForShell`
(the documented double-escape), booleans and numbers render bare, anything
else is stringified and escaped. -/
def formatSingleValue (v : JVal) : String :=
  match v with
  | .str s => sanitizeForShellStr s
  | .bool b => if b then "true" else "false"
  | .int n => toString n
  | v => sanitizeForShellStr (jsToString v)

/-- `formatValue`: arrays render as their formatted elements joined with
single spaces. -/
def formatValue (v : JVal) : String :=
  match v with
  | .arr xs => String.intercalate " " (xs.map formatSingleValue)
  | v => formatSingleValue v

/-- The placeholder text for a key. -/
def placeholderOf (key : String) : String :=
  lbraceS ++ key ++ rbraceS

/-- The first substitution loop of `buildCommand`: every sanitized context
entry whose placeholder occurs in the command replaces all its
occurrences. -/
def substSanitized (sanitized : List (String × JVal)) (command : String) :
    String :=
  sanitized.foldl (fun cmd kv =>
    let ph := placeholderOf kv.1
    if containsStr cmd ph then replaceAllStr cmd ph (formatValue kv.2)
    else cmd) command

/-- The second substitution loop of `buildCommand`: declared defaults fill
placeholders still present (the default runs through `sanitizeForShell`
directly and then through `formatValue` as a string). -/
def substDefaults (params : List (String × ParamSchema)) (command : String) :
    String :=
  params.foldl (fun cmd kv =>
    match kv.2.default? with
    | some d =>
      let ph := placeholderOf kv.1
      if containsStr cmd ph then
        replaceAllStr cmd ph (formatValue (.str (sanitizeForShell d)))
      else cmd
    | none => cmd) command

/-- The command text `buildCommand` produces once validation has passed. -/
def buildCommandStr (intent : Intent) (context : List (String × JVal)) :
    String :=
  substDefaults intent.params
    (substSanitized (validateParams context intent.params).sanitized
      intent.command)

/-- `Executor.buildCommand(intent, context, {validateOnly})`: validation
failure throws an `ExecutionError` unless `validateOnly` is set; otherwise the
substituted command and the validation result are returned.  Note that no
placeholder check happens here. -/
def buildCommand (intent : Intent) (context : List (String × JVal))
    (validateOnly : Bool) : Except ExecErr (String × ValidationResult) :=
  let validation := validateParams context intent.params
  if !validation.valid && !validateOnly then
    .error { message := "Parameter validation failed: " ++
               String.intercalate "; " (validation.errors.map
                 (fun e => e.message)),
             code := -32602,
             data := some (.obj [("errors",
               .arr (validation.errors.map (fun e =>
                 .obj [("type", .str e.type), ("param", .str e.param),
                       ("message", .str e.message)])))]) }
  else
    .ok (buildCommandStr intent context, validation)

/-! ## Orchestrator (`Router.intent` in `index.js`) -/

/-- A CMP error as thrown/serialized (`code`, `message`, `data`). -/
structure CMPErr where
  code : Int
  message : String
  data : Option JVal
deriving Repr

/-- The two non-error shapes `Router.intent` can return.  `confirm` is the
`confirmation_required` result (with its literal `success: false` and
`reason: "confirmation_required"` fields encoded by the constructor and
read back by `successFlag`/`reason?`); `executed` records that
`executor.run` was invoked with the built command (the process outcome itself
is I/O, outside the model). -/
inductive IntentOutcome where
  | confirm (tool : String) (command : String) (intentPat : Option String)
      (destructive : Bool) (message : String)
  | executed (tool : String) (command : String)
deriving Repr

/-- The `success` field of the returned result object. -/
def IntentOutcome.successFlag : IntentOutcome → Bool
  | .confirm _ _ _ _ _ => false
  | .executed _ _ => true

/-- The `reason` field of the returned result object. -/
def IntentOutcome.reason? : IntentOutcome → Option String
  | .confirm _ _ _ _ _ => some "confirmation_required"
  | .executed _ _ => none

/-- `Object.entries(context)` for the decoded `context` request field:
objects give their fields, arrays and strings their indexed entries, other
primitives none.  (A literal `null` context would make the JS code throw
inside the catch-all; no claim exercises it and it is mapped to no
entries.) -/
def ctxEntries : Option JVal → List (String × JVal)
  | some (.obj fs) => fs
  | some (.arr xs) => (List.range xs.length).zip xs |>.map
      (fun p => (toString p.1, p.2))
  | some (.str s) => (List.range s.data.length).zip s.data |>.map
      (fun p => (toString p.1, .str (String.mk [p.2])))
  | _ => []

/-- `typeof` of a possibly-absent value (`undefined` when absent), as
interpolated into the invalid-"want" error data. -/
def jsTypeofU : Option JVal → String
  | none => "undefined"
  | some v => jsTypeof v

/-- The message text of the capability-load failure thrown by
`Registry.loadCapability`. -/
def loadCapabilityFailMsg (toolName : String) : String :=
  "No capability.json found for tool: " ++ toolName

/-- `Router.intent(params)`.  The registry is the list of registered tools
(with their capability records), `rt` the abstract regex semantics.  Errors
return as `.error` (thrown `CMPError`/`ValidationError`), with unknown
exceptions wrapped as internal errors exactly as the catch-all does. -/
def routerIntent (rt : String → String → Bool) (reg : List RegTool)
    (params : List (String × JVal)) : Except CMPErr IntentOutcome :=
  let want? := jsLookup params "want"
  match want? with
  | some (.str w) =>
    if w == "" then
      .error { code := -32602,
               message := "Missing or invalid \"want\" parameter",
               data := some (.obj [("received", .str (jsTypeofU want?))]) }
    else
      let context := ctxEntries (jsLookup params "context")
      let confirm := jsTruthy (jsLookup params "confirm")
      match matcherMatch rt w reg with
      | none =>
        .error { code := -32000, message := "No tool matches intent: " ++ w,
                 data := some (.obj [("intent", .str w)]) }
      | some (.ambiguous cs) =>
        .error { code := -32004, message := "Ambiguous intent: " ++ w,
                 data := some (.obj [("intent", .str w),
                   ("candidates", .arr (cs.map (fun c =>
                     .obj [("tool", .str c.1), ("domain", .str c.2)])))]) }
      | some (.single m) =>
        match m.tool.capability with
        | none =>
          -- loadCapability throws a plain Error; the catch-all wraps it
          .error { code := -32603,
                   message := "Intent execution failed: " ++
                     loadCapabilityFailMsg m.tool.tool.name,
                   data := some (.obj [("want", .str w),
                     ("error", .str (loadCapabilityFailMsg
                       m.tool.tool.name))]) }
        | some caps =>
          match findIntent rt caps w with
          | none =>
            .error { code := -32000,
                     message := "No tool matches intent: " ++ w,
                     data := some (.obj [("intent", .str w)]) }
          | some intent =>
            let validation := validateParams context intent.params
            if !validation.valid then
              .error { code := -32602,
                       message := "Parameter validation failed: " ++
                         String.intercalate "; " (validation.errors.map
                           (fun e => e.message)),
                       data := some (.obj [("errors",
                         .arr (validation.errors.map (fun e =>
                           .obj [("type", .str e.type),
                                 ("param", .str e.param),
                                 ("message", .str e.message)])))]) }
            else
              match buildCommand intent context false with
              | .error e =>
                .error { code := e.code, message := e.message,
                         data := e.data }
              | .ok (command, _) =>
                if intent.confirm && !confirm then
                  .ok (.confirm m.tool.tool.name command
                    intent.patterns.head? intent.destructive
                    "This action requires confirmation. Set confirm: true to proceed.")
                else
                  .ok (.executed m.tool.tool.name command)
  | _ =>
    .error { code := -32602,
             message := "Missing or invalid \"want\" parameter",
             data := some (.obj [("received", .str (jsTypeofU want?))]) }

/-! ## Transport request handler (`server.js` `handleRequest`) -/

/-- `Registry.getDomains()`: the domains in first-registration order. -/
def getDomainsGo (seen : List String) : List String → List String
  | [] => []
  | d :: rest =>
    if seen.contains d then getDomainsGo seen rest
    else d :: getDomainsGo (d :: seen) rest

/-- `Registry.getDomains()`. -/
def getDomains (reg : List RegTool) : List String :=
  getDomainsGo [] (reg.map (fun t => t.tool.domain))

/-- `router.manifests(params.domain)`: a truthy string domain filters, any
other truthy value finds nothing, a falsy one lists every manifest. -/
def manifestsFor (reg : List RegTool) (v? : Option JVal) : List Tool :=
  if jsTruthy v? then
    match v? with
    | some (.str d) =>
      (reg.filter (fun t => t.tool.domain == d)).map (fun t => t.tool)
    | _ => []
  else reg.map (fun t => t.tool)

/-- `Registry.getTool(name)` (string names only; any other key misses). -/
def getTool (reg : List RegTool) (v? : Option JVal) : Option RegTool :=
  match v? with
  | some (.str n) => reg.find? (fun t => t.tool.name == n)
  | _ => none

/-- `router.contextSnippet()`. -/
def contextSnippet (reg : List RegTool) : String :=
  let domains := getDomains reg
  let manifests := reg.map (fun t => t.tool)
  let toolSummaries := String.intercalate "\n" (manifests.map (fun m =>
    "- " ++ m.name ++ " (" ++ m.domain ++ "): " ++ m.summary))
  "You have access to a Capability Router with " ++
    toString manifests.length ++ " tools.\n\nAvailable domains: " ++
    String.intercalate ", " domains ++ "\n\nTools:\n" ++ toolSummaries ++
    "\n\nTo use tools, send intents:\n" ++
    lbraceS ++ " \"want\": \"check email\" " ++ rbraceS ++ "\n" ++
    lbraceS ++ " \"want\": \"delete emails\", \"context\": " ++ lbraceS ++
    " \"ids\": [...] " ++ rbraceS ++ ", \"confirm\": true " ++ rbraceS ++
    "\n\nQuery cmp.capabilities for intent patterns. Query cmp.schema for parameters."

/-- The result payloads of the six dispatch methods. -/
inductive RouterReply where
  | domainsR (domains : List String)
  | manifestsR (manifests : List Tool)
  | capabilitiesR (intents : List (List String × Bool × Bool))
  | schemaR (intent : Intent)
  | intentR (o : IntentOutcome)
  | contextR (snippet : String)
deriving Repr

/-- A serialized JSON-RPC error member. -/
structure RpcErr where
  code : Int
  message : String
  data : Option JVal
deriving Repr

/-- A decoded JSON-RPC request; absent members are `none`. -/
structure RpcRequest where
  jsonrpc : Option JVal
  method : Option JVal
  params : Option JVal
  id : Option JVal
deriving Repr

/-- A response object; `cmp?` is the protocol version tag member, `none` when
the object literal does not contain it. -/
structure RpcResponse where
  jsonrpc : String
  result? : Option RouterReply
  error? : Option RpcErr
  id : Option JVal
  cmp? : Option String
deriving Repr

/-- The `try` block of `handleRequest`: method dispatch.  Throws (`.error`)
are the inline `{code, message}` objects and whatever the router throws. -/
def dispatchMethod (rt : String → String → Bool) (reg : List RegTool)
    (method : Option JVal) (pf : List (String × JVal)) :
    Except CMPErr RouterReply :=
  match method with
  | some (.str m) =>
    if m == "cmp.domains" then .ok (.domainsR (getDomains reg))
    else if m == "cmp.manifests" then
      .ok (.manifestsR (manifestsFor reg (jsLookup pf "domain")))
    else if m == "cmp.capabilities" then
      if !jsTruthy (jsLookup pf "tool") then
        .error { code := -32602, message := "Missing required param: tool",
                 data := none }
      else
        match getTool reg (jsLookup pf "tool") with
        | none =>
          let tn := match jsLookup pf "tool" with
            | some v => jsToString v
            | none => "undefined"
          .error { code := -32001, message := "Tool not found: " ++ tn,
                   data := some (.obj [("tool", .str tn)]) }
        | some t =>
          match t.capability with
          | none =>
            .error { code := -32002,
                     message := "Failed to load capabilities for tool: " ++
                       t.tool.name,
                     data := some (.obj [("tool", .str t.tool.name),
                       ("error", .str (loadCapabilityFailMsg
                         t.tool.name))]) }
          | some caps =>
            .ok (.capabilitiesR (caps.map (fun i =>
              (i.patterns, i.confirm, i.destructive))))
    else if m == "cmp.schema" then
      if !jsTruthy (jsLookup pf "tool") || !jsTruthy (jsLookup pf "pattern")
      then
        .error { code := -32602,
                 message := "Missing required params: tool, pattern",
                 data := none }
      else
        match getTool reg (jsLookup pf "tool") with
        | none =>
          let tn := match jsLookup pf "tool" with
            | some v => jsToString v
            | none => "undefined"
          .error { code := -32001, message := "Tool not found: " ++ tn,
                   data := some (.obj [("tool", .str tn)]) }
        | some t =>
          match t.capability with
          | none =>
            .error { code := -32603,
                     message := "Failed to get schema: " ++
                       loadCapabilityFailMsg t.tool.name,
                     data := none }
          | some caps =>
            match jsLookup pf "pattern" with
            | some (.str pat) =>
              match findIntent rt caps pat with
              | none =>
                .error { code := -32000,
                         message := "No intent matches pattern: " ++ pat,
                         data := some (.obj [("tool", .str t.tool.name),
                           ("pattern", .str pat)]) }
              | some i => .ok (.schemaR i)
            | _ =>
              -- a non-string pattern makes findIntent throw; wrapped generic
              .error { code := -32603,
                       message := "Failed to get schema: type error",
                       data := none }
    else if m == "cmp.intent" then
      if !jsTruthy (jsLookup pf "want") then
        .error { code := -32602, message := "Missing required param: want",
                 data := none }
      else
        match routerIntent rt reg pf with
        | .ok o => .ok (.intentR o)
        | .error e => .error e
    else if m == "cmp.context" then .ok (.contextR (contextSnippet reg))
    else
      .error { code := -32601, message := "Method not found: " ++ m,
               data := none }
  | mv =>
    let ms := match mv with
      | some v => jsToString v
      | none => "undefined"
    .error { code := -32601, message := "Method not found: " ++ ms,
             data := none }

/-- `handleRequest(router, request)`.  The JSON-RPC 2.0 envelope check
precedes the `try`/`catch`; only the dispatch responses carry the `cmp`
version member (`err.code || -32000` maps a zero/absent code to `-32000`). -/
def handleRequest (rt : String → String → Bool) (reg : List RegTool)
    (req : RpcRequest) : RpcResponse :=
  let pf := match req.params with
    | some (.obj fs) => fs
    | _ => []
  let envOk := match req.jsonrpc with
    | some (.str s) => s == "2.0"
    | _ => false
  if !envOk then
    { jsonrpc := "2.0", result? := none,
      error? := some { code := -32600,
                       message := "Invalid request: must be JSON-RPC 2.0",
                       data := none },
      id := req.id, cmp? := none }
  else
    match dispatchMethod rt reg req.method pf with
    | .ok r =>
      { jsonrpc := "2.0", result? := some r, error? := none,
        id := req.id, cmp? := some "0.1.0" }
    | .error e =>
      { jsonrpc := "2.0", result? := none,
        error? := some { code := if e.code == 0 then -32000 else e.code,
                         message := e.message, data := e.data },
        id := req.id, cmp? := some "0.1.0" }

/-! ## POSIX shell quoting model (for the injection claims)

Modelled from the spec: the claims about the executed command refer to "POSIX
shell quoting rules" — the shell itself is not part of this repository, so its
word-splitting/quote-removal semantics are embedded here from the spec's
words.  Supported constructs are the ones the built commands can contain:
single quotes (everything up to the matching quote is literal), backslash
outside quotes (escapes the next character), the space word separator and the
`;` command separator.  `none` models a syntactically unterminated input. -/

/-- Scanner mode: ordinary text, inside single quotes, or immediately after
an unquoted backslash. -/
inductive ShMode where
  | plain
  | single
  | esc
deriving Repr

/-- One pass of the field/command splitter.  `cur` accumulates the current
word (reversed); `started` distinguishes an empty-but-present word (from
`''`) from no word; `words` is the current command, `cmds` the finished
ones. -/
def shellGo (mode : ShMode) (cur : List Char) (started : Bool)
    (words : List String) (cmds : List (List String)) :
    List Char → Option (List (List String))
  | [] =>
    match mode with
    | .single => none
    | .esc => none
    | .plain =>
      let words1 := if started then words ++ [String.mk cur.reverse]
                    else words
      some (cmds ++ [words1])
  | c :: rest =>
    match mode with
    | .esc => shellGo .plain (c :: cur) true words cmds rest
    | .single =>
      if c == squoteC then shellGo .plain cur started words cmds rest
      else shellGo .single (c :: cur) started words cmds rest
    | .plain =>
      if c == bslashC then shellGo .esc cur started words cmds rest
      else if c == squoteC then shellGo .single cur true words cmds rest
      else if c == ' ' then
        let words1 := if started then words ++ [String.mk cur.reverse]
                      else words
        shellGo .plain [] false words1 cmds rest
      else if c == ';' then
        let words1 := if started then words ++ [String.mk cur.reverse]
                      else words
        shellGo .plain [] false [] (cmds ++ [words1]) rest
      else shellGo .plain (c :: cur) true words cmds rest

/-- Parse a command line into its `;`-separated commands, each a list of
literal argument words after quote removal. -/
def shellParse (s : String) : Option (List (List String)) :=
  shellGo .plain [] false [] [] s.data

/-! ## The unwrapping rule of the round-trip claim

The inverse quoting rule as the spec states it: strip the outer single
quotes, then replace each close-quote backslash-quote reopen-quote sequence
by a single quote, scanning left to right. -/

/-- Replace each occurrence of the four-character escape sequence by one
single quote (left-to-right, non-overlapping). -/
def unescQuotes : List Char → List Char
  | [] => []
  | [c] => [c]
  | [c, d] => [c, d]
  | [c, d, e] => [c, d, e]
  | c :: d :: e :: f :: rest =>
    if c == squoteC && d == bslashC && e == squoteC && f == squoteC then
      squoteC :: unescQuotes rest
    else c :: unescQuotes (d :: e :: f :: rest)

/-- Strip the outer quotes and unescape: the spec's unwrapping rule. -/
def unwrapShell (s : String) : String :=
  String.mk (unescQuotes ((s.data.drop 1).dropLast))


/-! ## Concrete fixtures used by the claim theorems -/

/-- A regex semantics for concrete evaluations: no `re:` pattern is used by
any fixture, so the stub is never consulted. -/
def rtF : String → String → Bool := fun _ _ => false

/-- Pattern-matching intent of the first tied tool. -/
def helloIntentA : Intent :=
  { patterns := ["hello world"], command := "echo a", params := [],
    confirm := false, destructive := false }

/-- Pattern-matching intent of the second tied tool. -/
def helloIntentB : Intent :=
  { patterns := ["hello world"], command := "echo b", params := [],
    confirm := false, destructive := false }

/-- First tool tied at score 1.0 for the input "hello world". -/
def toolAlpha : RegTool :=
  { tool := { name := "alpha", domain := "d", summary := "qqq" },
    capability := some [helloIntentA] }

/-- Second tool tied at score 1.0 for the input "hello world". -/
def toolBeta : RegTool :=
  { tool := { name := "beta", domain := "d", summary := "qqq" },
    capability := some [helloIntentB] }

/-- A tool whose summary shares the word "hello" with the input but whose
capability has no matching intent: it scores only 0.5. -/
def toolGamma : RegTool :=
  { tool := { name := "gamma", domain := "d", summary := "say hello loudly" },
    capability := some [] }

/-- A confirm-gated intent with an empty parameter schema. -/
def confirmIntent : Intent :=
  { patterns := ["hello"], command := "echo hi", params := [],
    confirm := true, destructive := false }

/-- The registry entry holding `confirmIntent`. -/
def toolConfirm : RegTool :=
  { tool := { name := "t", domain := "d", summary := "qq" },
    capability := some [confirmIntent] }

/-- The message intent of the injection scenario: schema
`message : string`, template `echo \x7bmessage\x7d`. -/
def messageIntent : Intent :=
  { patterns := ["say"], command := "echo " ++ placeholderOf "message",
    params := [("message", { type? := some "string", required := false,
                             default? := none, enum? := none })],
    confirm := false, destructive := false }

/-- The smuggled-placeholder intent: two string parameters `p` and `q`, both
substituted into the template. -/
def smuggleIntent : Intent :=
  { patterns := ["run"],
    command := "run " ++ placeholderOf "p" ++ " " ++ placeholderOf "q",
    params := [("p", { type? := some "string", required := false,
                       default? := none, enum? := none }),
               ("q", { type? := some "string", required := false,
                       default? := none, enum? := none })],
    confirm := false, destructive := false }

/-! ## Claims -/

/-- C1, counterexample: with the empty schema the context value `"a b"` is
returned verbatim in the sanitized map, whereas shell sanitization of the
same value (what an unknown parameter receives under a non-empty schema)
wraps it in single quotes — so the claim that the value appears
shell-sanitized is false. -/
theorem claim_C1_counterexample :
    (validateParams [("x", JVal.str "a b")] []).valid = true ∧
    (validateParams [("x", JVal.str "a b")] []).sanitized =
      [("x", JVal.str "a b")] ∧
    (validateParams [("x", JVal.str "a b")]
      [("y", { type? := some "string", required := false,
               default? := none, enum? := none })]).sanitized =
      [("x", JVal.str (squoteS ++ "a b" ++ squoteS))] ∧
    JVal.str "a b" ≠ JVal.str (squoteS ++ "a b" ++ squoteS) := by
  refine ⟨rfl, rfl, rfl, ?_⟩
  intro h
  injection h with h2
  exact absurd h2 (by decide)

/-- C1, amended: for every context map, validation with an empty or absent
parameter schema returns a valid outcome whose error list is empty and whose
sanitized map is the context itself, passed through verbatim — no shell
sanitization is applied on this path. -/
theorem claim_C1 (context : List (String × JVal)) :
    validateParams context [] =
      { valid := true, errors := [], sanitized := context } := rfl

/-- C6, counterexample: the text "5" against a declared integer type with
enumeration `[5]` coerces successfully to the integer 5, yet the enumeration
test uses the raw supplied value under strict equality, so an `invalid_enum`
error is emitted and nothing is stored — the claim that the coerced value is
tested is false. -/
theorem claim_C6_counterexample :
    validateType (JVal.str "5") (some "integer") =
      some (some (JVal.int 5)) ∧
    (validateParams [("n", JVal.str "5")]
      [("n", { type? := some "integer", required := false,
               default? := none, enum? := some [JVal.int 5] })]).valid =
      false ∧
    (validateParams [("n", JVal.str "5")]
      [("n", { type? := some "integer", required := false,
               default? := none, enum? := some [JVal.int 5] })]).errors.map
        (fun e => e.type) = ["invalid_enum"] ∧
    (validateParams [("n", JVal.str "5")]
      [("n", { type? := some "integer", required := false,
               default? := none, enum? := some [JVal.int 5] })]).sanitized =
      [] :=
  ⟨rfl, rfl, rfl, rfl⟩

/-- C6, amended: for a parameter whose supplied value passes the type check
(possibly with a coercion), a declared enumeration is tested for membership
of the RAW supplied value under strict equality: when the raw value is a
member no `invalid_enum` error occurs and the sanitized, possibly-coerced
value is stored; when it is not a member (even if the coerced value is), an
`invalid_enum` error is emitted and nothing is stored for that key. -/
theorem claim_C6 (k : String) (v : JVal) (ty : Option String)
    (es : List JVal) (c? : Option JVal)
    (hv : validateType v ty = some c?) :
    ((es.any (fun e => jsEq e v)) = true →
      (validateParams [(k, v)]
        [(k, { type? := ty, required := false, default? := none,
               enum? := some es })]) =
        { valid := true, errors := [],
          sanitized := [(k, sanitizeValue (c?.getD v))] }) ∧
    ((es.any (fun e => jsEq e v)) = false →
      (validateParams [(k, v)]
        [(k, { type? := ty, required := false, default? := none,
               enum? := some es })]) =
        { valid := false,
          errors := [{ type := "invalid_enum", param := k,
                       expected? := some (.arr es), received? := some v,
                       message := "Parameter " ++ quoteName k ++
                         " must be one of: " ++ joinEnum es }],
          sanitized := [] }) := by
  constructor
  · intro hm
    simp [validateParams, checkRequired, jsHasKey, validateParamsStep,
      schemaLookup, hv, hm, jsSetKey]
  · intro hm
    simp [validateParams, checkRequired, jsHasKey, validateParamsStep,
      schemaLookup, hv, hm, jsSetKey]

/-- C6, witness. -/
theorem claim_C6_witness :
    (validateParams [("s", JVal.str "active")]
      [("s", { type? := some "string", required := false, default? := none,
               enum? := some [JVal.str "active"] })]) =
      { valid := true, errors := [],
        sanitized := [("s", JVal.str "active")] } ∧
    (validateParams [("n", JVal.str "5")]
      [("n", { type? := some "integer", required := false, default? := none,
               enum? := some [JVal.int 5] })]).valid = false := by
  constructor
  · exact (claim_C6 "s" (JVal.str "active") (some "string")
      [JVal.str "active"] none rfl).1 rfl
  · have h := (claim_C6 "n" (JVal.str "5") (some "integer")
      [JVal.int 5] (some (JVal.int 5)) rfl).2 rfl
    rw [h]

/-- C10: an execute-intent request whose "want" field is the empty string is
rejected with the invalid-params error (code -32602) regardless of the
registry and of the regex semantics — the error does not depend on any tool,
so no matching is attempted; only non-empty strings proceed past this
check. -/
theorem claim_C10 (rt : String → String → Bool) (reg : List RegTool)
    (params : List (String × JVal))
    (h : jsLookup params "want" = some (JVal.str "")) :
    routerIntent rt reg params =
      .error { code := -32602,
               message := "Missing or invalid \"want\" parameter",
               data := some (.obj [("received", JVal.str "string")]) } := by
  unfold routerIntent
  rw [h]
  rfl

/-- C10, witness. -/
theorem claim_C10_witness :
    routerIntent (fun _ _ => false) [] [("want", JVal.str "")] =
      .error { code := -32602,
               message := "Missing or invalid \"want\" parameter",
               data := some (.obj [("received", JVal.str "string")]) } :=
  claim_C10 (fun _ _ => false) [] [("want", JVal.str "")] rfl

/-- C7: the response to a request that fails the JSON-RPC 2.0 envelope check
carries NO `cmp` version member, while the response to the same request with
a valid envelope does — evaluating the handler at the failing input
exhibits the missing protocol version tag. -/
theorem claim_C7 :
    (handleRequest (fun _ _ => false) []
      { jsonrpc := some (.str "1.0"), method := some (.str "cmp.domains"),
        params := none, id := some (.int 1) }) =
      { jsonrpc := "2.0", result? := none,
        error? := some { code := -32600,
                         message := "Invalid request: must be JSON-RPC 2.0",
                         data := none },
        id := some (.int 1), cmp? := none } ∧
    (handleRequest (fun _ _ => false) []
      { jsonrpc := some (.str "2.0"), method := some (.str "cmp.domains"),
        params := none, id := some (.int 1) }).cmp? = some "0.1.0" :=
  ⟨rfl, rfl⟩

/-- C4, counterexample: `buildCommand` on an intent whose template keeps an
unsubstitutable placeholder returns successfully — it does not raise — even
though the returned command still contains the placeholder (which
`checkPlaceholders` confirms). -/
theorem claim_C4_counterexample :
    buildCommand
      { patterns := [], command := "echo " ++ placeholderOf "x",
        params := [], confirm := false, destructive := false } [] false =
      .ok ("echo " ++ placeholderOf "x",
        { valid := true, errors := [], sanitized := [] }) ∧
    checkPlaceholders ("echo " ++ placeholderOf "x") = (true, ["x"]) :=
  ⟨rfl, rfl⟩

/-- C4, amended: the unsubstituted-placeholder error is raised by `run` (via
`validateCommand`), not by `buildCommand`: whenever a command text still
contains a placeholder, `validateCommand` throws the hard error carrying the
list of the missing placeholder names and `run` never reaches the process
spawn. -/
theorem claim_C4 (command : String)
    (h : (checkPlaceholders command).1 = true) :
    validateCommandE command = .error
      { message := "Command has unsubstituted placeholders: " ++
          String.intercalate ", " (checkPlaceholders command).2,
        code := -32602,
        errors := (checkPlaceholders command).2.map (fun p =>
          { type := "unsubstituted_placeholder", param := p,
            expected? := none, received? := none,
            message := "Parameter " ++ quoteName p ++
              " was not provided and has no default" }) } ∧
    runReachesSpawn command = false := by
  have e : validateCommandE command = .error
      { message := "Command has unsubstituted placeholders: " ++
          String.intercalate ", " (checkPlaceholders command).2,
        code := -32602,
        errors := (checkPlaceholders command).2.map (fun p =>
          { type := "unsubstituted_placeholder", param := p,
            expected? := none, received? := none,
            message := "Parameter " ++ quoteName p ++
              " was not provided and has no default" }) } := by
    simp only [validateCommandE, h, if_true]
  exact ⟨e, by unfold runReachesSpawn; rw [e]⟩

/-- C4, witness. -/
theorem claim_C4_witness :
    validateCommandE ("echo " ++ placeholderOf "x") = .error
      { message := "Command has unsubstituted placeholders: x",
        code := -32602,
        errors := [{ type := "unsubstituted_placeholder", param := "x",
                     expected? := none, received? := none,
                     message := "Parameter " ++ quoteName "x" ++
                       " was not provided and has no default" }] } ∧
    runReachesSpawn ("echo " ++ placeholderOf "x") = false :=
  claim_C4 ("echo " ++ placeholderOf "x") rfl

/-- Replacing the escape sequence in a list that starts with a non-quote
character keeps that character (no escape block can begin there). -/
theorem unescQuotes_cons_ne (c : Char) (l : List Char) (hc : ¬ c = squoteC) :
    unescQuotes (c :: l) = c :: unescQuotes l := by
  match l with
  | [] => rfl
  | [d] => rfl
  | [d, e] => rfl
  | d :: e :: f :: rest =>
    simp [unescQuotes, hc]

/-- The spec's unwrapping replacement is a left inverse of the quote
escaping. -/
theorem unescQuotes_escQuotes (cs : List Char) :
    unescQuotes (escQuotes cs) = cs := by
  induction cs with
  | nil => rfl
  | cons c rest ih =>
    by_cases hc : c = squoteC
    · subst hc
      show unescQuotes (escQuoteChar squoteC ++ escQuotes rest) = _
      simp only [escQuoteChar, if_pos rfl]
      show unescQuotes
        (squoteC :: bslashC :: squoteC :: squoteC :: escQuotes rest) = _
      rw [unescQuotes]
      simp [ih]
    · show unescQuotes (escQuoteChar c ++ escQuotes rest) = _
      have hb : (c == squoteC) = false := by
        simp [hc]
      simp only [escQuoteChar, hb, Bool.false_eq_true, if_false,
        List.singleton_append]
      rw [unescQuotes_cons_ne c _ hc, ih]

/-- A string containing a single quote is never in the safe class. -/
theorem isSimpleShellStr_false_of_quote (s : String) (h : squoteC ∈ s.data) :
    isSimpleShellStr s = false := by
  unfold isSimpleShellStr
  have hall : s.data.all isSafeChar = false := by
    rw [List.all_eq_false]
    exact ⟨squoteC, h, by decide⟩
  rw [hall, Bool.and_false]

/-- C8: shell sanitization is the identity on every non-empty string made
only of safe characters (letters, digits, dot, dash, underscore, slash); and
for every string containing a single quote, stripping the outer quotes of the
sanitized output and replacing each close-quote backslash-quote reopen-quote
sequence by one single quote reconstructs the original string exactly. -/
theorem claim_C8 (s : String) :
    (s.data ≠ [] → s.data.all isSafeChar = true → sanitizeForShellStr s = s) ∧
    (squoteC ∈ s.data → unwrapShell (sanitizeForShellStr s) = s) := by
  constructor
  · intro hne hall
    unfold sanitizeForShellStr
    have hs : isSimpleShellStr s = true := by
      unfold isSimpleShellStr
      rw [hall]
      simp [hne]
    rw [hs]
    rfl
  · intro h
    unfold sanitizeForShellStr
    rw [isSimpleShellStr_false_of_quote s h]
    unfold unwrapShell
    show String.mk (unescQuotes
      (((squoteC :: (escQuotes s.data ++ [squoteC])).drop 1).dropLast)) = s
    rw [List.drop_succ_cons, List.drop_zero, List.dropLast_concat,
      unescQuotes_escQuotes]

/-- C8, witness. -/
theorem claim_C8_witness :
    sanitizeForShellStr "abc" = "abc" ∧
    unwrapShell (sanitizeForShellStr ("a" ++ squoteS ++ "b")) =
      "a" ++ squoteS ++ "b" :=
  ⟨(claim_C8 "abc").1 (by decide) (by decide),
   (claim_C8 ("a" ++ squoteS ++ "b")).2 (by decide)⟩

theorem mem_insertByScore {x c : Candidate} {l : List Candidate} :
    x ∈ insertByScore c l ↔ x = c ∨ x ∈ l := by
  induction l with
  | nil => simp [insertByScore]
  | cons d ds ih =>
    by_cases hd : Rat.blt d.score c.score = true
    · simp only [insertByScore, if_pos hd, List.mem_cons]
    · simp only [insertByScore, if_neg hd, List.mem_cons, ih]
      tauto

theorem mem_sortFold (l acc : List Candidate) (x : Candidate) :
    x ∈ l.foldl (fun a c => insertByScore c a) acc ↔ x ∈ acc ∨ x ∈ l := by
  induction l generalizing acc with
  | nil => simp
  | cons c cs ih =>
    rw [List.foldl_cons, ih]
    simp only [mem_insertByScore, List.mem_cons]
    tauto

theorem mem_sortByScoreDesc (l : List Candidate) (x : Candidate) :
    x ∈ sortByScoreDesc l ↔ x ∈ l := by
  unfold sortByScoreDesc
  rw [mem_sortFold]
  simp

/-- C5, amended: whenever the two highest-scoring candidates of a match pass
have exactly equal scores, the result is an ambiguous match and no specific
winner is returned; the exposed candidate list is the name and domain of
EVERY candidate collected by the pass, in sorted order — the tied tools are
all among them, but lower-scoring candidates are exposed as well. -/
theorem claim_C5 (rt : String → String → Bool) (w : String)
    (tools : List RegTool) (c0 c1 : Candidate) (rest : List Candidate)
    (hs : sortByScoreDesc (matchCandidates rt (trimStr (toLowerStr w)) tools)
      = c0 :: c1 :: rest)
    (heq : c0.score = c1.score) :
    matcherMatch rt w tools =
      some (.ambiguous ((c0 :: c1 :: rest).map (fun c =>
        (c.tool.tool.name, c.tool.tool.domain)))) ∧
    ∀ c ∈ matchCandidates rt (trimStr (toLowerStr w)) tools,
      (c.tool.tool.name, c.tool.tool.domain) ∈
        (c0 :: c1 :: rest).map (fun c =>
          (c.tool.tool.name, c.tool.tool.domain)) := by
  have hne : (matchCandidates rt (trimStr (toLowerStr w)) tools).isEmpty
      = false := by
    cases hcand : matchCandidates rt (trimStr (toLowerStr w)) tools with
    | nil =>
      rw [hcand] at hs
      simp [sortByScoreDesc] at hs
    | cons a as => rfl
  constructor
  · unfold matcherMatch
    simp only [hne, Bool.false_eq_true, if_false, hs, heq, beq_self_eq_true,
      if_true]
  · intro c hc
    have : c ∈ c0 :: c1 :: rest := by
      rw [← hs, mem_sortByScoreDesc]
      exact hc
    exact List.mem_map_of_mem _ this

/-- C5, counterexample: for the input "hello world", `toolAlpha` and
`toolBeta` tie at score 1.0 while `toolGamma` scores only 0.5, yet the
ambiguous result exposes all three tools — the exposed candidate list is not
limited to the tools tied at the maximum score, refuting the claim. -/
theorem claim_C5_counterexample :
    matchCandidates rtF "hello world" [toolAlpha, toolBeta, toolGamma] =
      [{ tool := toolAlpha, intent? := some helloIntentA, score := 1 },
       { tool := toolBeta, intent? := some helloIntentB, score := 1 },
       { tool := toolGamma, intent? := none, score := mkRat 1 2 }] ∧
    (mkRat 1 2 < (1 : ℚ)) ∧
    matcherMatch rtF "hello world" [toolAlpha, toolBeta, toolGamma] =
      some (.ambiguous [("alpha", "d"), ("beta", "d"), ("gamma", "d")]) :=
  ⟨rfl, by norm_num [mkRat], rfl⟩

/-- C5, witness. -/
theorem claim_C5_witness :
    matcherMatch rtF "hello world" [toolAlpha, toolBeta, toolGamma] =
      some (.ambiguous [("alpha", "d"), ("beta", "d"), ("gamma", "d")]) :=
  (claim_C5 rtF "hello world" [toolAlpha, toolBeta, toolGamma]
    { tool := toolAlpha, intent? := some helloIntentA, score := 1 }
    { tool := toolBeta, intent? := some helloIntentB, score := 1 }
    [{ tool := toolGamma, intent? := none, score := mkRat 1 2 }]
    rfl rfl).1

/-- C3: for every intent whose confirm flag is true and every execute-intent
request whose confirm field is falsy or absent, once the pipeline has matched
a single tool, loaded its capability, re-resolved the intent and passed
validation, the orchestrator RETURNS (it does not throw) the
confirmation_required result — success flag false, reason
"confirmation_required", the matched tool's name, the fully built command,
the intent's destructive flag and the fixed human-readable message — and the
executor's run is never invoked on that call (the executed outcome is never
produced). -/
theorem claim_C3 (rt : String → String → Bool) (reg : List RegTool)
    (params : List (String × JVal)) (w : String) (m : Candidate)
    (caps : List Intent) (intent : Intent)
    (hw : jsLookup params "want" = some (JVal.str w))
    (hne : ¬ w = "")
    (hm : matcherMatch rt w reg = some (.single m))
    (hcap : m.tool.capability = some caps)
    (hfi : findIntent rt caps w = some intent)
    (hcf : intent.confirm = true)
    (hnc : jsTruthy (jsLookup params "confirm") = false)
    (hval : (validateParams (ctxEntries (jsLookup params "context"))
      intent.params).valid = true) :
    routerIntent rt reg params =
      Except.ok (IntentOutcome.confirm m.tool.tool.name
        (buildCommandStr intent (ctxEntries (jsLookup params "context")))
        intent.patterns.head? intent.destructive
        "This action requires confirmation. Set confirm: true to proceed.") ∧
    IntentOutcome.successFlag (IntentOutcome.confirm m.tool.tool.name
        (buildCommandStr intent (ctxEntries (jsLookup params "context")))
        intent.patterns.head? intent.destructive
        "This action requires confirmation. Set confirm: true to proceed.")
      = false ∧
    IntentOutcome.reason? (IntentOutcome.confirm m.tool.tool.name
        (buildCommandStr intent (ctxEntries (jsLookup params "context")))
        intent.patterns.head? intent.destructive
        "This action requires confirmation. Set confirm: true to proceed.")
      = some "confirmation_required" ∧
    (∀ t c, routerIntent rt reg params ≠
      Except.ok (IntentOutcome.executed t c)) := by
  have hwe : (w == "") = false := by
    simp [hne]
  have hmain : routerIntent rt reg params =
      Except.ok (IntentOutcome.confirm m.tool.tool.name
        (buildCommandStr intent (ctxEntries (jsLookup params "context")))
        intent.patterns.head? intent.destructive
        "This action requires confirmation. Set confirm: true to proceed.")
      := by
    unfold routerIntent
    simp only [hw, hwe, Bool.false_eq_true, if_false, hm, hcap, hfi, hval,
      Bool.not_true, Bool.false_and, buildCommand, hcf, hnc,
      Bool.not_false, Bool.true_and, if_true]
  refine ⟨hmain, rfl, rfl, ?_⟩
  intro t c h
  rw [hmain] at h
  simp at h

/-- C3, witness. -/
theorem claim_C3_witness :
    routerIntent rtF [toolConfirm] [("want", JVal.str "hello")] =
      Except.ok (IntentOutcome.confirm "t" "echo hi" (some "hello") false
        "This action requires confirmation. Set confirm: true to proceed.") :=
  (claim_C3 rtF [toolConfirm] [("want", JVal.str "hello")] "hello"
    { tool := toolConfirm, intent? := some confirmIntent, score := 1 }
    [confirmIntent] confirmIntent rfl (by decide) rfl rfl rfl rfl rfl rfl).1

/-- C2, counterexample: the validator wraps "hi; rm -rf /" in single quotes,
and `formatSingleValue` then sanitizes the already-quoted string a second
time (the double escape documented in the executor's tests), so the shell
delivers the single-quote-wrapped text — NOT the original string — as the
sole argument: the claim that the original string is delivered as one
literal argument is false.  (Injection is still neutralized: exactly one
command, one argument.) -/
theorem claim_C2_counterexample :
    (validateParams [("message", JVal.str "hi; rm -rf /")]
      messageIntent.params).valid = true ∧
    buildCommandStr messageIntent [("message", JVal.str "hi; rm -rf /")] =
      "echo " ++ squoteS ++ squoteS ++ String.mk [bslashC] ++ squoteS ++
        squoteS ++ "hi; rm -rf /" ++ squoteS ++ String.mk [bslashC] ++
        squoteS ++ squoteS ++ squoteS ∧
    shellParse (buildCommandStr messageIntent
      [("message", JVal.str "hi; rm -rf /")]) =
      some [["echo", squoteS ++ "hi; rm -rf /" ++ squoteS]] ∧
    (squoteS ++ "hi; rm -rf /" ++ squoteS) ≠ "hi; rm -rf /" :=
  ⟨rfl, rfl, rfl, by decide⟩

/-- C2, amended: for the context `message = "hi; rm -rf /"` validated against
the string-typed schema and substituted into the template, the resulting
command parses under POSIX quoting rules to exactly ONE command of exactly
two words — no unquoted command separator survives, so no secondary command
runs — but, because the sanitized value is escaped a second time during
formatting, the literal argument delivered is the single-quote-wrapped text
`'hi; rm -rf /'` rather than the bare original; the dangerous text is inert
inside the argument. -/
theorem claim_C2 :
    shellParse (buildCommandStr messageIntent
      [("message", JVal.str "hi; rm -rf /")]) =
      some [["echo", squoteS ++ "hi; rm -rf /" ++ squoteS]] ∧
    containsStr (squoteS ++ "hi; rm -rf /" ++ squoteS) "hi; rm -rf /" =
      true :=
  ⟨rfl, rfl⟩

/-- Escaping distributes over list append. -/
theorem escQuotes_append (x y : List Char) :
    escQuotes (x ++ y) = escQuotes x ++ escQuotes y := by
  induction x with
  | nil => rfl
  | cons c cs ih => simp [escQuotes, ih]

theorem escQuotes_self (l : List Char) (h : ∀ c ∈ l, ¬ c = squoteC) :
    escQuotes l = l := by
  induction l with
  | nil => rfl
  | cons c cs ih =>
    have hc : ¬ c = squoteC := h c (List.mem_cons_self c cs)
    have hb : (c == squoteC) = false := by simp [hc]
    simp only [escQuotes, escQuoteChar, hb, Bool.false_eq_true, if_false,
      List.singleton_append, List.cons.injEq, true_and]
    exact ih (fun d hd => h d (List.mem_cons_of_mem c hd))

theorem str_data_append (a b : String) : (a ++ b).data = a.data ++ b.data :=
  rfl

theorem isSimple_false_of_mem_bad (s : String) (c : Char)
    (hc : c ∈ s.data) (hcs : isSafeChar c = false) :
    isSimpleShellStr s = false := by
  unfold isSimpleShellStr
  have hall : s.data.all isSafeChar = false := by
    rw [List.all_eq_false]
    exact ⟨c, hc, by simp [hcs]⟩
  rw [hall, Bool.and_false]

theorem sanitizeForShellStr_keeps_block (x tok y : List Char)
    (htok : ∀ c ∈ tok, ¬ c = squoteC)
    (hwrap : isSimpleShellStr (String.mk (x ++ tok ++ y)) = false) :
    ∃ u v, (sanitizeForShellStr (String.mk (x ++ tok ++ y))).data =
      u ++ tok ++ v := by
  unfold sanitizeForShellStr
  rw [hwrap]
  refine ⟨squoteC :: escQuotes x, escQuotes y ++ [squoteC], ?_⟩
  show squoteC :: escQuotes (x ++ tok ++ y) ++ [squoteC] = _
  rw [escQuotes_append, escQuotes_append, escQuotes_self tok htok]
  simp [List.append_assoc]

theorem nil_isPrefixOf (l : List Char) : List.isPrefixOf [] l = true := by
  cases l <;> rfl

theorem isPrefixOf_append_self (a b : List Char) :
    a.isPrefixOf (a ++ b) = true := by
  induction a with
  | nil => exact nil_isPrefixOf b
  | cons c cs ih => simp [List.isPrefixOf, ih]

theorem containsSub_decomp (sep x y : List Char) :
    containsSub sep (x ++ sep ++ y) = true := by
  induction x with
  | nil =>
    show containsSub sep (sep ++ y) = true
    cases sep with
    | nil => cases y <;> simp [containsSub, nil_isPrefixOf]
    | cons s ss =>
      show containsSub (s :: ss) (s :: (ss ++ y)) = true
      unfold containsSub
      rw [← List.cons_append, isPrefixOf_append_self]
      rfl
  | cons c cs ih =>
    show containsSub sep (c :: (cs ++ sep ++ y)) = true
    unfold containsSub
    rw [ih, Bool.or_true]

theorem replaceGo_decomp (sep rep x y : List Char) (hsep : sep ≠ [])
    (fuel : Nat) (hf : (x ++ sep ++ y).length ≤ fuel) :
    ∃ u v, replaceGo sep rep fuel (x ++ sep ++ y) = u ++ rep ++ v := by
  induction x generalizing fuel with
  | nil =>
    cases sep with
    | nil => exact absurd rfl hsep
    | cons s ss =>
      cases fuel with
      | zero => simp at hf
      | succ f =>
        refine ⟨[], replaceGo (s :: ss) rep f
          (((s :: ss) ++ y).drop (s :: ss).length), ?_⟩
        show replaceGo (s :: ss) rep (f + 1) ((s :: ss) ++ y) = _
        have hcond : (!(s :: ss).isEmpty &&
            (s :: ss).isPrefixOf ((s :: ss) ++ y)) = true := by
          rw [isPrefixOf_append_self]
          rfl
        show replaceGo (s :: ss) rep (f + 1) (s :: (ss ++ y)) = _
        rw [replaceGo]
        simp only [List.cons_append] at hcond
        rw [hcond]
        simp
  | cons c cs ih =>
    cases fuel with
    | zero => simp at hf
    | succ f =>
      show ∃ u v, replaceGo sep rep (f + 1) (c :: (cs ++ sep ++ y)) = _
      rw [replaceGo]
      by_cases hcond : (!sep.isEmpty &&
          sep.isPrefixOf (c :: (cs ++ sep ++ y))) = true
      · rw [if_pos hcond]
        exact ⟨[], replaceGo sep rep f ((c :: (cs ++ sep ++ y)).drop
          sep.length), rfl⟩
      · rw [if_neg hcond]
        have hf' : (cs ++ sep ++ y).length ≤ f := by
          simp only [List.cons_append, List.length_cons] at hf
          simp only [List.length_append] at hf ⊢
          omega
        obtain ⟨u, v, huv⟩ := ih f hf'
        exact ⟨c :: u, v, by rw [huv]; rfl⟩

theorem wordChar_ne_lbrace {c : Char} (h : isWordCharJS c = true) :
    (c == lbraceC) = false := by
  by_contra hb
  rw [Bool.not_eq_false, beq_iff_eq] at hb
  subst hb
  exact absurd h (by decide)

theorem wordChar_ne_rbrace {c : Char} (h : isWordCharJS c = true) :
    (c == rbraceC) = false := by
  by_contra hb
  rw [Bool.not_eq_false, beq_iff_eq] at hb
  subst hb
  exact absurd h (by decide)

theorem wordChar_ne_squote {c : Char} (h : isWordCharJS c = true) :
    ¬ c = squoteC := by
  intro he
  subst he
  exact absurd h (by decide)

theorem placeholderScan_emit (l2 : List Char) :
    ∀ (w acc : List Char), w.all isWordCharJS = true →
    (w ≠ [] ∨ acc ≠ []) →
    placeholderScan (some acc) (w ++ rbraceC :: l2) ≠ [] := by
  intro w
  induction w with
  | nil =>
    intro acc hall hne
    have hacc : acc ≠ [] := hne.resolve_left (fun h => h rfl)
    cases acc with
    | nil => exact absurd rfl hacc
    | cons d ds =>
      show placeholderScan (some (d :: ds)) (rbraceC :: l2) ≠ []
      unfold placeholderScan
      simp only [show (rbraceC == lbraceC) = false from by decide,
        Bool.false_eq_true, if_false,
        show (rbraceC == rbraceC) = true from by decide, if_true]
      simp
  | cons c w' ih =>
    intro acc hall hne
    rw [List.all_cons, Bool.and_eq_true] at hall
    show placeholderScan (some acc) (c :: (w' ++ rbraceC :: l2)) ≠ []
    unfold placeholderScan
    simp only [wordChar_ne_lbrace hall.1, wordChar_ne_rbrace hall.1,
      Bool.false_eq_true, if_false, hall.1, if_true]
    exact ih (c :: acc) hall.2 (Or.inr (by simp))

theorem placeholderScan_ne_nil (w l2 : List Char) (hw : w ≠ [])
    (hall : w.all isWordCharJS = true) :
    ∀ (l1 : List Char) (st : Option (List Char)),
    placeholderScan st (l1 ++ lbraceC :: (w ++ rbraceC :: l2)) ≠ [] := by
  intro l1
  induction l1 with
  | nil =>
    intro st
    show placeholderScan st (lbraceC :: (w ++ rbraceC :: l2)) ≠ []
    unfold placeholderScan
    simp only [show (lbraceC == lbraceC) = true from by decide, if_true]
    exact placeholderScan_emit l2 w [] hall (Or.inl hw)
  | cons c l1' ih =>
    intro st
    show placeholderScan st
      (c :: (l1' ++ lbraceC :: (w ++ rbraceC :: l2))) ≠ []
    unfold placeholderScan
    by_cases h1 : (c == lbraceC) = true
    · simp only [h1, if_true]
      exact ih _
    · rw [Bool.not_eq_true] at h1
      simp only [h1, Bool.false_eq_true, if_false]
      by_cases h2 : (c == rbraceC) = true
      · simp only [h2, if_true]
        cases st with
        | none => exact ih _
        | some acc =>
          cases acc with
          | nil => exact ih _
          | cons d ds => simp
      · rw [Bool.not_eq_true] at h2
        simp only [h2, Bool.false_eq_true, if_false]
        by_cases h3 : isWordCharJS c = true
        · simp only [h3, if_true]
          cases st with
          | none => exact ih _
          | some ws => exact ih _
        · rw [Bool.not_eq_true] at h3
          simp only [h3, Bool.false_eq_true, if_false]
          exact ih _

theorem validateParams_single_string (k v : String) :
    validateParams [(k, JVal.str v)]
      [(k, { type? := some "string", required := false, default? := none,
             enum? := none })] =
      { valid := true, errors := [],
        sanitized := [(k, JVal.str (sanitizeForShellStr v))] } := by
  simp [validateParams, checkRequired, jsHasKey, validateParamsStep,
    schemaLookup, jsSetKey, validateType, sanitizeValue]

theorem buildCommandStr_single (k t1 t2 : String) (pats : List String)
    (cf dst : Bool) (v : String) :
    buildCommandStr
      { patterns := pats, command := t1 ++ placeholderOf k ++ t2,
        params := [(k, { type? := some "string", required := false,
                         default? := none, enum? := none })],
        confirm := cf, destructive := dst }
      [(k, JVal.str v)] =
    replaceAllStr (t1 ++ placeholderOf k ++ t2) (placeholderOf k)
      (sanitizeForShellStr (sanitizeForShellStr v)) := by
  unfold buildCommandStr
  rw [validateParams_single_string]
  show substDefaults _ (substSanitized
    [(k, JVal.str (sanitizeForShellStr v))]
    (t1 ++ placeholderOf k ++ t2)) = _
  have hcont : containsStr (t1 ++ placeholderOf k ++ t2)
      (placeholderOf k) = true :=
    containsSub_decomp (placeholderOf k).data t1.data t2.data
  simp only [substSanitized, List.foldl_cons, List.foldl_nil, hcont,
    if_true, substDefaults]
  rfl

theorem sanitizeForShellStr_keeps_block2 (s : String) (x tok y : List Char)
    (hs : s.data = x ++ tok ++ y)
    (htok : ∀ c ∈ tok, ¬ c = squoteC)
    (hwrap : isSimpleShellStr s = false) :
    ∃ u v, (sanitizeForShellStr s).data = u ++ tok ++ v := by
  unfold sanitizeForShellStr
  rw [hwrap]
  refine ⟨squoteC :: escQuotes x, escQuotes y ++ [squoteC], ?_⟩
  show squoteC :: escQuotes s.data ++ [squoteC] = _
  rw [hs, escQuotes_append, escQuotes_append, escQuotes_self tok htok]
  simp [List.append_assoc]

theorem sanitizeForShellStr_data_wrapped (s : String)
    (hwrap : isSimpleShellStr s = false) :
    (sanitizeForShellStr s).data =
      squoteC :: (escQuotes s.data ++ [squoteC]) := by
  unfold sanitizeForShellStr
  rw [hwrap]
  rfl

theorem spawnGate_closed (cmd : String)
    (h : (checkPlaceholders cmd).1 = true) : runReachesSpawn cmd = false := by
  unfold runReachesSpawn validateCommandE
  simp only [checkPlaceholders] at h ⊢
  rw [h]
  rfl

theorem singleParamToken_hasPlaceholders (k a b w t1 t2 : String) (pats : List String)
    (cf dst : Bool)
    (hw : w.data ≠ []) (hall : w.data.all isWordCharJS = true) :
    (checkPlaceholders (buildCommandStr
      { patterns := pats, command := t1 ++ placeholderOf k ++ t2,
        params := [(k, { type? := some "string", required := false,
                         default? := none, enum? := none })],
        confirm := cf, destructive := dst }
      [(k, JVal.str (a ++ lbraceS ++ w ++ rbraceS ++ b))])).1 = true := by
  have htok : ∀ c ∈ lbraceC :: (w.data ++ [rbraceC]), ¬ c = squoteC := by
    intro c hc
    rcases List.mem_cons.mp hc with h | h
    · subst h; decide
    · rcases List.mem_append.mp h with h | h
      · exact wordChar_ne_squote (List.all_eq_true.mp hall c h)
      · rcases List.mem_singleton.mp h with rfl
        decide
  have hvdata : (a ++ lbraceS ++ w ++ rbraceS ++ b).data =
      a.data ++ (lbraceC :: (w.data ++ [rbraceC])) ++ b.data := by
    show a.data ++ [lbraceC] ++ w.data ++ [rbraceC] ++ b.data = _
    simp [List.append_assoc]
  have hwrap1 : isSimpleShellStr (a ++ lbraceS ++ w ++ rbraceS ++ b)
      = false := by
    refine isSimple_false_of_mem_bad _ lbraceC ?_ (by decide)
    rw [hvdata]
    simp
  obtain ⟨u1, v1, h1⟩ := sanitizeForShellStr_keeps_block2
    (a ++ lbraceS ++ w ++ rbraceS ++ b) a.data _ b.data hvdata htok hwrap1
  have hq : squoteC ∈
      (sanitizeForShellStr (a ++ lbraceS ++ w ++ rbraceS ++ b)).data := by
    rw [sanitizeForShellStr_data_wrapped _ hwrap1]
    exact List.mem_cons_self _ _
  have hwrap2 : isSimpleShellStr
      (sanitizeForShellStr (a ++ lbraceS ++ w ++ rbraceS ++ b)) = false :=
    isSimple_false_of_mem_bad _ squoteC hq (by decide)
  obtain ⟨u2, v2, h2⟩ := sanitizeForShellStr_keeps_block2
    (sanitizeForShellStr (a ++ lbraceS ++ w ++ rbraceS ++ b)) u1 _ v1 h1
    htok hwrap2
  have hsep : (placeholderOf k).data ≠ [] := by
    show ([lbraceC] ++ k.data) ++ [rbraceC] ≠ []
    simp
  obtain ⟨u, v', h3⟩ := replaceGo_decomp (placeholderOf k).data
    (sanitizeForShellStr (sanitizeForShellStr
      (a ++ lbraceS ++ w ++ rbraceS ++ b))).data
    t1.data t2.data hsep
    (t1 ++ placeholderOf k ++ t2).data.length
    (Nat.le_refl _)
  have hbc := buildCommandStr_single k t1 t2 pats cf dst
    (a ++ lbraceS ++ w ++ rbraceS ++ b)
  have hcmddata : (buildCommandStr
      { patterns := pats, command := t1 ++ placeholderOf k ++ t2,
        params := [(k, { type? := some "string", required := false,
                         default? := none, enum? := none })],
        confirm := cf, destructive := dst }
      [(k, JVal.str (a ++ lbraceS ++ w ++ rbraceS ++ b))]).data =
      u ++ (u2 ++ (lbraceC :: (w.data ++ [rbraceC])) ++ v2) ++ v' := by
    rw [hbc]
    show replaceGo (placeholderOf k).data _ _
      (t1.data ++ (placeholderOf k).data ++ t2.data) = _
    rw [h3, h2]
  have hfinal : (buildCommandStr
      { patterns := pats, command := t1 ++ placeholderOf k ++ t2,
        params := [(k, { type? := some "string", required := false,
                         default? := none, enum? := none })],
        confirm := cf, destructive := dst }
      [(k, JVal.str (a ++ lbraceS ++ w ++ rbraceS ++ b))]).data =
      (u ++ u2) ++ (lbraceC :: (w.data ++ rbraceC :: (v2 ++ v'))) := by
    rw [hcmddata]
    simp [List.append_assoc]
  have hscan : placeholderScan none (buildCommandStr
      { patterns := pats, command := t1 ++ placeholderOf k ++ t2,
        params := [(k, { type? := some "string", required := false,
                         default? := none, enum? := none })],
        confirm := cf, destructive := dst }
      [(k, JVal.str (a ++ lbraceS ++ w ++ rbraceS ++ b))]).data ≠ [] := by
    rw [hfinal]
    exact placeholderScan_ne_nil w.data (v2 ++ v') hw hall (u ++ u2) none
  show (!(placeholderScan none _).isEmpty) = true
  cases hs : placeholderScan none (buildCommandStr
      { patterns := pats, command := t1 ++ placeholderOf k ++ t2,
        params := [(k, { type? := some "string", required := false,
                         default? := none, enum? := none })],
        confirm := cf, destructive := dst }
      [(k, JVal.str (a ++ lbraceS ++ w ++ rbraceS ++ b))]).data with
  | nil => exact absurd hs hscan
  | cons c cs => rfl

/-- C9, amended: the unsubstituted-placeholder check does scan the entire
finished command text, inside quoted values as well — but only tokens that
SURVIVE substitution are caught.  For every single-parameter string schema,
every template containing the parameter's placeholder and every value
embedding a brace token `\x7bword\x7d`, validation passes, `buildCommand`
returns normally, the built command still contains a placeholder token, and
`run` rejects it before any process is spawned.  (When the embedded token
names another substituted parameter, substitution replaces it and no
rejection occurs — see the counterexample.) -/
theorem claim_C9 (k a b w t1 t2 : String) (pats : List String)
    (cf dst : Bool)
    (hw : w.data ≠ []) (hall : w.data.all isWordCharJS = true) :
    (validateParams [(k, JVal.str (a ++ lbraceS ++ w ++ rbraceS ++ b))]
      [(k, { type? := some "string", required := false, default? := none,
             enum? := none })]).valid = true ∧
    buildCommand
      { patterns := pats, command := t1 ++ placeholderOf k ++ t2,
        params := [(k, { type? := some "string", required := false,
                         default? := none, enum? := none })],
        confirm := cf, destructive := dst }
      [(k, JVal.str (a ++ lbraceS ++ w ++ rbraceS ++ b))] false =
      .ok (buildCommandStr
        { patterns := pats, command := t1 ++ placeholderOf k ++ t2,
          params := [(k, { type? := some "string", required := false,
                           default? := none, enum? := none })],
          confirm := cf, destructive := dst }
        [(k, JVal.str (a ++ lbraceS ++ w ++ rbraceS ++ b))],
        validateParams [(k, JVal.str (a ++ lbraceS ++ w ++ rbraceS ++ b))]
          [(k, { type? := some "string", required := false,
                 default? := none, enum? := none })]) ∧
    (checkPlaceholders (buildCommandStr
      { patterns := pats, command := t1 ++ placeholderOf k ++ t2,
        params := [(k, { type? := some "string", required := false,
                         default? := none, enum? := none })],
        confirm := cf, destructive := dst }
      [(k, JVal.str (a ++ lbraceS ++ w ++ rbraceS ++ b))])).1 = true ∧
    runReachesSpawn (buildCommandStr
      { patterns := pats, command := t1 ++ placeholderOf k ++ t2,
        params := [(k, { type? := some "string", required := false,
                         default? := none, enum? := none })],
        confirm := cf, destructive := dst }
      [(k, JVal.str (a ++ lbraceS ++ w ++ rbraceS ++ b))]) = false := by
  have hph := singleParamToken_hasPlaceholders k a b w t1 t2 pats cf dst
    hw hall
  refine ⟨?_, ?_, hph, spawnGate_closed _ hph⟩
  · rw [validateParams_single_string]
  · unfold buildCommand
    rw [validateParams_single_string]
    simp

/-- C9, witness. -/
theorem claim_C9_witness :
    (checkPlaceholders (buildCommandStr
      { patterns := [], command := "echo " ++ placeholderOf "msg",
        params := [("msg", { type? := some "string", required := false,
                             default? := none, enum? := none })],
        confirm := false, destructive := false }
      [("msg", JVal.str ("" ++ lbraceS ++ "q" ++ rbraceS ++ ""))])).1
      = true ∧
    runReachesSpawn (buildCommandStr
      { patterns := [], command := "echo " ++ placeholderOf "msg",
        params := [("msg", { type? := some "string", required := false,
                             default? := none, enum? := none })],
        confirm := false, destructive := false }
      [("msg", JVal.str ("" ++ lbraceS ++ "q" ++ rbraceS ++ ""))]) =
      false := by
  have h := claim_C9 "msg" "" "" "q" "echo " "" [] false false
    (by decide) (by decide)
  exact ⟨h.2.2.1, h.2.2.2⟩

/-- C9, counterexample: with schema `p, q : string`, context
`p = "\x7bq\x7d"`, `q = "x"` and template `run \x7bp\x7d \x7bq\x7d`, the
parameter value `p` itself contains the brace token `\x7bq\x7d`, every
declared parameter is substituted and validation passes — yet the token is
substituted away by `q`'s own substitution pass, the finished command has no
placeholder left, and `run` proceeds to spawn: the claim that run rejects
EVERY such context is false. -/
theorem claim_C9_counterexample :
    (validateParams
      [("p", JVal.str (placeholderOf "q")), ("q", JVal.str "x")]
      smuggleIntent.params).valid = true ∧
    containsStr (placeholderOf "q") (placeholderOf "q") = true ∧
    buildCommandStr smuggleIntent
      [("p", JVal.str (placeholderOf "q")), ("q", JVal.str "x")] =
      "run " ++ squoteS ++ squoteS ++ String.mk [bslashC] ++ squoteS ++
        squoteS ++ "x" ++ squoteS ++ String.mk [bslashC] ++ squoteS ++
        squoteS ++ squoteS ++ " x" ∧
    checkPlaceholders (buildCommandStr smuggleIntent
      [("p", JVal.str (placeholderOf "q")), ("q", JVal.str "x")]) =
      (false, []) ∧
    runReachesSpawn (buildCommandStr smuggleIntent
      [("p", JVal.str (placeholderOf "q")), ("q", JVal.str "x")]) = true :=
  ⟨rfl, rfl, rfl, rfl, rfl⟩
